import Mathlib

set_option linter.unusedVariables false

/-!
Verification of the resume/job-description gap-analysis workflow
(`agent_flow.py`, with collaborators `gemini_client.py` and
`github_mcp_client.py`).

The workflow state (`InterviewAgentState`, a Python TypedDict) is embedded
as a record of optional fields: a field that a Python state dict does not
contain is `none`.  Node work units are embedded as functions from the
state (and an explicit environment standing for the external LLM / GitHub
collaborators) to `Except String` of a partial state update; a raised
Python exception is `Except.error`.  The langgraph execution engine is not
part of this repository's sources; where a claim depends on it, the
scheduler and graph builder are modelled from the specification and marked
as such in their doc comments.
-/

namespace AgentFlow

/-- The workflow state schema `InterviewAgentState` (agent_flow.py lines
26-38).  Every field is optional: a Python dict need not contain a key, and
node return values are partial updates containing only the keys they set. -/
structure InterviewAgentState where
  job_description : Option String := none
  resume_text : Option String := none
  github_user : Option String := none
  worked_topics : Option (List String) := none
  resume_skills : Option (List String) := none
  required_topics : Option (List String) := none
  missing_topics : Option (List String) := none
  overlap_topics : Option (List String) := none
  learning_plan : Option String := none
  tuned_resume : Option String := none
  deriving DecidableEq, Repr

/-- The update with no keys set. -/
def emptyUpdate : InterviewAgentState := {}

/-- Key-wise merge of one optional field: a key present in the update
overwrites, an absent key leaves the old value. -/
def mergeField {α : Type} (old upd : Option α) : Option α :=
  match upd with
  | some v => some v
  | none => old

/-- Merge a partial update into the workflow state, key by key (the state
store's `merge(partialUpdate)` operation: dict-update semantics of the
langgraph state channel for un-annotated TypedDict fields). -/
def mergeState (s u : InterviewAgentState) : InterviewAgentState where
  job_description := mergeField s.job_description u.job_description
  resume_text := mergeField s.resume_text u.resume_text
  github_user := mergeField s.github_user u.github_user
  worked_topics := mergeField s.worked_topics u.worked_topics
  resume_skills := mergeField s.resume_skills u.resume_skills
  required_topics := mergeField s.required_topics u.required_topics
  missing_topics := mergeField s.missing_topics u.missing_topics
  overlap_topics := mergeField s.overlap_topics u.overlap_topics
  learning_plan := mergeField s.learning_plan u.learning_plan
  tuned_resume := mergeField s.tuned_resume u.tuned_resume

/-- The `DEBUG` flag (agent_flow.py line 20); only gates traceback printing. -/
def DEBUG : Bool := true

/-- Function `safe_run` (agent_flow.py lines 47-59): runs the async work unit `fn`;
on success returns its result, on any exception returns `fallback`.
Logging and traceback printing are I/O only and are not modelled. -/
def safe_run {α : Type} (node_name : String) (fn : Unit → Except String α)
    (fallback : α) : α :=
  match fn () with
  | Except.ok r => r
  | Except.error _ => fallback

/-- Function `safe_run_sync` (agent_flow.py lines 62-71): the synchronous variant of
`safe_run`, with identical result semantics. -/
def safe_run_sync {α : Type} (node_name : String) (fn : Unit → Except String α)
    (fallback : α) : α :=
  match fn () with
  | Except.ok r => r
  | Except.error _ => fallback

/-! ## External collaborators

`GeminiClient.generate` (gemini_client.py) and the GitHub MCP client
(github_mcp_client.py) are network services.  They are embedded as an
explicit environment: the Gemini response is a function of the prompt, and
the GitHub client's per-call responses are data.  `Except.error` stands for
a raised provider exception. -/

deriving instance DecidableEq for Except

/-- Outcome data for one repository as seen through the GitHub client:
its name, the result of `repos.list_languages` (the keys of the languages
dict) and the result of `repos.get_topics` (the `names` list). -/
structure RepoInfo where
  name : String
  langs : Except String (List String)
  topics : Except String (List String)
  deriving DecidableEq, Repr

/-- Environment of the GitHub MCP client: the outcome of `connect()` and of
`repos.list_repos_for_user` (the `repositories` list). -/
structure GHEnv where
  connectResult : Except String Unit
  reposResult : Except String (List RepoInfo)
  deriving DecidableEq, Repr

/-- Combined external environment of a run: the Gemini LLM (response as a
function of the prompt) and the GitHub client. -/
structure Env where
  gemini : String → Except String String
  gh : GHEnv

/-- Python `str.strip()` on the values manipulated here. -/
def pyStrip (s : String) : String := s.trim

/-- The list comprehension `[s.strip() for s in result.split("\n") if
s.strip()]` (agent_flow.py lines 184, 209): split on newlines, strip each
line, keep the non-empty ones. -/
def extractLines (result : String) : List String :=
  (result.splitOn "\n").filterMap fun s =>
    let t := pyStrip s
    if t = "" then none else some t

/-- Python `repr` of a string, as interpolated by an f-string containing a
list of strings (quote escaping elided: the topics handled here contain no
quotes). -/
def pyReprStr (s : String) : String := "'" ++ s ++ "'"

/-- Python `str` of a list of strings, as produced by f-string
interpolation of `state.get("missing_topics", [])` and the like. -/
def pyReprList (l : List String) : String :=
  "[" ++ String.intercalate ", " (l.map pyReprStr) ++ "]"

/-! ## Node work units (agent_flow.py lines 80-284)

Each node is `safe_run`/`safe_run_sync` applied to an inner `run` closure.
The inner closures are embedded as `..._run` functions returning
`Except String InterviewAgentState` (the partial update, or the raised
exception); the node functions apply the error wrapper with the declared
fallback. -/

/-- Actions performed on the GitHub client session, recorded to reason
about resource acquisition and release. -/
inductive GHAction where
  | connect
  | call (tool : String)
  | close
  deriving DecidableEq, Repr

/-- The per-repository loop of `github_analysis_node` (agent_flow.py lines
99-116): for each repository, call `repos.list_languages` then
`repos.get_topics`, extending the `languages` and `repo_topics`
accumulators; the first raised exception aborts the loop.  Returns the
accumulated `(repo_topics, languages)`. -/
def ghLoopRes : List RepoInfo → Except String (List String × List String)
  | [] => Except.ok ([], [])
  | r :: rs =>
    match r.langs with
    | Except.error e => Except.error e
    | Except.ok ls =>
      match r.topics with
      | Except.error e => Except.error e
      | Except.ok ts =>
        match ghLoopRes rs with
        | Except.error e => Except.error e
        | Except.ok (topsRest, langsRest) => Except.ok (ts ++ topsRest, ls ++ langsRest)

/-- The trace of client `call` actions performed by the per-repository
loop, up to and including the first call that raised. -/
def ghLoopTrace : List RepoInfo → List GHAction
  | [] => []
  | r :: rs =>
    match r.langs with
    | Except.error _ => [GHAction.call "repos.list_languages"]
    | Except.ok _ =>
      match r.topics with
      | Except.error _ =>
        [GHAction.call "repos.list_languages", GHAction.call "repos.get_topics"]
      | Except.ok _ =>
        [GHAction.call "repos.list_languages", GHAction.call "repos.get_topics"]
          ++ ghLoopTrace rs

/-- Python `sorted(...)` on a list of strings: Python's sort, embedded as
insertion sort under the lexicographic order (extensionally equal on any
list: sorted permutations under a linear order are unique). -/
def pySorted (l : List String) : List String :=
  List.insertionSort (fun a b => a ≤ b) l

/-- The `try` body of `github_analysis_node`'s `run` closure (agent_flow.py
lines 89-122): list the repositories, loop over them, and build
`sorted(list(set(repo_topics + languages)))`. -/
def ghBody (env : Env) : Except String InterviewAgentState :=
  match env.gh.reposResult with
  | Except.error e => Except.error e
  | Except.ok repos =>
    match ghLoopRes repos with
    | Except.error e => Except.error e
    | Except.ok (repoTopics, languages) =>
      Except.ok { emptyUpdate with
        worked_topics := some (pySorted ((repoTopics ++ languages).dedup)) }

/-- The trace of client `call` actions performed by the `try` body. -/
def ghBodyTrace (env : Env) : List GHAction :=
  match env.gh.reposResult with
  | Except.error _ => [GHAction.call "repos.list_repos_for_user"]
  | Except.ok repos => GHAction.call "repos.list_repos_for_user" :: ghLoopTrace repos

/-- The `run` closure of `github_analysis_node` (agent_flow.py lines
82-125) together with the trace of client-session actions: read
`state["github_user"]` (KeyError if absent), `connect()`, then the body
under `try/finally`, so `close()` runs on every exit path after a
successful connect — whether the body returned or raised. -/
def github_analysis_run (state : InterviewAgentState) (env : Env) :
    Except String InterviewAgentState × List GHAction :=
  match state.github_user with
  | none => (Except.error "KeyError: github_user", [])
  | some user =>
    match env.gh.connectResult with
    | Except.error e => (Except.error e, [GHAction.connect])
    | Except.ok _ =>
      (ghBody env, GHAction.connect :: (ghBodyTrace env ++ [GHAction.close]))

/-- Node `github_analysis_node` (agent_flow.py lines 80-131): the `run` body
wrapped by `safe_run` with fallback `{"worked_topics": []}`. -/
def github_analysis_node (state : InterviewAgentState) (env : Env) :
    InterviewAgentState :=
  safe_run "github_analysis" (fun _ => (github_analysis_run state env).1)
    { emptyUpdate with worked_topics := some [] }

/-- The prompt of `resume_expert_node` (agent_flow.py lines 176-182). -/
def resumeExpertPrompt (resume : String) : String :=
  "\nExtract concise skills (max 40).\nOne skill per line, max 5 words.\n\nResume:\n"
    ++ resume ++ "\n"

/-- The `run` closure of `resume_expert_node` (agent_flow.py lines
174-185): read `state["resume_text"]`, call Gemini, split the response into
stripped non-empty lines. -/
def resume_expert_run (state : InterviewAgentState) (env : Env) :
    Except String InterviewAgentState :=
  match state.resume_text with
  | none => Except.error "KeyError: resume_text"
  | some resume =>
    match env.gemini (resumeExpertPrompt resume) with
    | Except.error e => Except.error e
    | Except.ok result =>
      Except.ok { emptyUpdate with resume_skills := some (extractLines result) }

/-- Node `resume_expert_node` (agent_flow.py lines 172-192): wrapped by
`safe_run` with fallback `{"resume_skills": []}`. -/
def resume_expert_node (state : InterviewAgentState) (env : Env) :
    InterviewAgentState :=
  safe_run "resume_expert" (fun _ => resume_expert_run state env)
    { emptyUpdate with resume_skills := some [] }

/-- The prompt of `jd_extraction_node` (agent_flow.py lines 201-207). -/
def jdExtractionPrompt (jd : String) : String :=
  "\nExtract key required topics from the JD.\nOne short phrase per line.\nNo explanations.\n\n"
    ++ jd ++ "\n"

/-- The `run` closure of `jd_extraction_node` (agent_flow.py lines
198-210): read `state["job_description"]`, call Gemini, split the response
into stripped non-empty lines. -/
def jd_extraction_run (state : InterviewAgentState) (env : Env) :
    Except String InterviewAgentState :=
  match state.job_description with
  | none => Except.error "KeyError: job_description"
  | some jd =>
    match env.gemini (jdExtractionPrompt jd) with
    | Except.error e => Except.error e
    | Except.ok result =>
      Except.ok { emptyUpdate with required_topics := some (extractLines result) }

/-- Node `jd_extraction_node` (agent_flow.py lines 196-217): wrapped by
`safe_run` with fallback `{"required_topics": []}`. -/
def jd_extraction_node (state : InterviewAgentState) (env : Env) :
    InterviewAgentState :=
  safe_run "jd_extraction" (fun _ => jd_extraction_run state env)
    { emptyUpdate with required_topics := some [] }

/-- Python `list(required - worked)` on sets built from these lists: the
distinct elements of `required` not in `worked` (one representative order;
the claims about it are set-level). -/
def pySetDiff (required worked : List String) : List String :=
  required.dedup.filter fun x => ! worked.contains x

/-- Python `list(required & worked)`: the distinct elements of `required`
also in `worked`. -/
def pySetInter (required worked : List String) : List String :=
  required.dedup.filter fun x => worked.contains x

/-- The `run` closure of `gap_analysis_node` (agent_flow.py lines 223-233):
`worked = set(state.get("worked_topics", [])) | set(state.get("resume_skills", []))`,
`required = set(state.get("required_topics", []))`, and the set difference /
intersection as lists.  All reads use `dict.get` with a default, so the
closure raises no exception; it is still typed in `Except` to make that
explicit. -/
def gap_analysis_run (state : InterviewAgentState) :
    Except String InterviewAgentState :=
  let worked := state.worked_topics.getD [] ++ state.resume_skills.getD []
  let required := state.required_topics.getD []
  Except.ok { emptyUpdate with
    missing_topics := some (pySetDiff required worked)
    overlap_topics := some (pySetInter required worked) }

/-- Node `gap_analysis_node` (agent_flow.py lines 221-239): wrapped by
`safe_run_sync` with fallback `{"missing_topics": [], "overlap_topics": []}`. -/
def gap_analysis_node (state : InterviewAgentState) : InterviewAgentState :=
  safe_run_sync "gap_analysis" (fun _ => gap_analysis_run state)
    { emptyUpdate with missing_topics := some [], overlap_topics := some [] }

/-- The prompt of `learning_plan_node` (agent_flow.py lines 246-251),
interpolating the Python `str` of `state.get("missing_topics", [])`. -/
def learningPlanPrompt (topics : List String) : String :=
  "\nCreate a 6-step learning plan.\nEach step ≤ 10 words.\n\nTopics: "
    ++ pyReprList topics ++ "\n"

/-- The `run` closure of `learning_plan_node` (agent_flow.py lines
245-253): build the prompt from `state.get("missing_topics", [])` and call
Gemini. -/
def learning_plan_run (state : InterviewAgentState) (env : Env) :
    Except String InterviewAgentState :=
  match env.gemini (learningPlanPrompt (state.missing_topics.getD [])) with
  | Except.error e => Except.error e
  | Except.ok plan => Except.ok { emptyUpdate with learning_plan := some plan }

/-- Node `learning_plan_node` (agent_flow.py lines 243-259): wrapped by
`safe_run` with its fixed fallback message. -/
def learning_plan_node (state : InterviewAgentState) (env : Env) :
    InterviewAgentState :=
  safe_run "learning_plan" (fun _ => learning_plan_run state env)
    { emptyUpdate with
      learning_plan := some "Unable to generate learning plan due to an error." }

/-- The prompt of `resume_tuning_node` (agent_flow.py lines 266-276),
interpolating `state.get("overlap_topics", [])`,
`state.get("job_description", "")` and `state.get("resume_text", "")`. -/
def resumeTuningPrompt (overlap : List String) (jd resume : String) : String :=
  "\nRewrite resume focusing on strengths: " ++ pyReprList overlap
    ++ ".\nShort bullets (≤ 15 words).\nOnly output revised resume.\n\nJob Description:\n"
    ++ jd ++ "\n\nResume:\n" ++ resume ++ "\n"

/-- The `run` closure of `resume_tuning_node` (agent_flow.py lines
265-278): build the prompt from defaulted state reads and call Gemini. -/
def resume_tuning_run (state : InterviewAgentState) (env : Env) :
    Except String InterviewAgentState :=
  match env.gemini (resumeTuningPrompt (state.overlap_topics.getD [])
      (state.job_description.getD "") (state.resume_text.getD "")) with
  | Except.error e => Except.error e
  | Except.ok tuned => Except.ok { emptyUpdate with tuned_resume := some tuned }

/-- Node `resume_tuning_node` (agent_flow.py lines 263-284): wrapped by
`safe_run` with fallback `{"tuned_resume": state.get("resume_text", "")}`
(the fallback is computed from the node's state snapshot). -/
def resume_tuning_node (state : InterviewAgentState) (env : Env) :
    InterviewAgentState :=
  safe_run "resume_tuning" (fun _ => resume_tuning_run state env)
    { emptyUpdate with tuned_resume := some (state.resume_text.getD "") }

/-! ## Scheduler model for the compiled gap-analysis graph

`build_graph` (agent_flow.py lines 290-318) declares the graph
START → {github_analysis, resume_expert, jd_extraction} → gap_analysis →
{learning_plan, resume_tuning} → END and compiles it with langgraph.  The
langgraph engine itself is not part of this repository's sources; its
execution is modelled from the spec (section 4.4): nodes with in-degree
zero are dispatched concurrently on the current state snapshot, each
completion merges the node's partial update and decrements successor
in-degrees, and a successor is dispatched when its in-degree reaches zero.
Instantiated at this graph: the three fan-out nodes all receive the
initial state, their updates are merged in some completion order, the
AND-join `gap_analysis` then receives the fully merged snapshot, and the
two tail nodes both receive the post-join snapshot, their updates merged
in some completion order. -/

/-- The three fan-out nodes dispatched from START. -/
inductive FanNode where
  | gh
  | re
  | jd
  deriving DecidableEq, Repr

/-- The two tail nodes dispatched after the join. -/
inductive TailNode where
  | lp
  | rt
  deriving DecidableEq, Repr

/-- The partial update produced by one fan-out node, run on the initial
snapshot (spec section 4.4 step 3: all in-degree-zero nodes receive the
state snapshot at dispatch, before any merge). -/
def fanoutUpdate (env : Env) (init : InterviewAgentState) :
    FanNode → InterviewAgentState
  | FanNode.gh => github_analysis_node init env
  | FanNode.re => resume_expert_node init env
  | FanNode.jd => jd_extraction_node init env

/-- Modelled from the spec: the state snapshot the AND-join `gap_analysis`
receives — the initial state with the three fan-out updates merged in
completion order `σ` (spec sections 4.4 and 5: the join runs only after
all predecessors reached a terminal outcome and their updates are merged). -/
def gapSnapshot (env : Env) (init : InterviewAgentState) (σ : List FanNode) :
    InterviewAgentState :=
  σ.foldl (fun s n => mergeState s (fanoutUpdate env init n)) init

/-- Modelled from the spec: the state after `gap_analysis` completes and
its update is merged. -/
def postGap (env : Env) (init : InterviewAgentState) (σ : List FanNode) :
    InterviewAgentState :=
  mergeState (gapSnapshot env init σ) (gap_analysis_node (gapSnapshot env init σ))

/-- The partial update produced by one tail node, run on the post-join
snapshot. -/
def tailUpdate (env : Env) (s : InterviewAgentState) :
    TailNode → InterviewAgentState
  | TailNode.lp => learning_plan_node s env
  | TailNode.rt => resume_tuning_node s env

/-- Modelled from the spec: a full run of the compiled gap-analysis graph
(spec section 4.4 `run(graph, initialState) -> finalState`), parameterized
by the completion order `σ` of the three fan-out nodes and the completion
order `τ` of the two tail nodes — the only scheduling freedom this graph
has. -/
def runGapGraph (env : Env) (init : InterviewAgentState)
    (σ : List FanNode) (τ : List TailNode) : InterviewAgentState :=
  τ.foldl (fun s n => mergeState s (tailUpdate env (postGap env init σ) n))
    (postGap env init σ)

/-- The canonical completion order of the fan-out nodes (declaration order
in `build_graph`). -/
def fanOrder : List FanNode := [FanNode.gh, FanNode.re, FanNode.jd]

/-- The canonical completion order of the tail nodes. -/
def tailOrder : List TailNode := [TailNode.lp, TailNode.rt]

/-- All six nodes of the gap-analysis graph. -/
inductive GNode where
  | gh
  | re
  | jd
  | gap
  | lp
  | rt
  deriving DecidableEq, Repr

/-- The outcome of each node's work unit in a run with fan-out completion
order `σ`: the fan-out closures run on the initial snapshot, `gap_analysis`
on the join snapshot, the tail closures on the post-join snapshot. -/
def nodeRunAt (env : Env) (init : InterviewAgentState) (σ : List FanNode) :
    GNode → Except String InterviewAgentState
  | GNode.gh => (github_analysis_run init env).1
  | GNode.re => resume_expert_run init env
  | GNode.jd => jd_extraction_run init env
  | GNode.gap => gap_analysis_run (gapSnapshot env init σ)
  | GNode.lp => learning_plan_run (postGap env init σ) env
  | GNode.rt => resume_tuning_run (postGap env init σ) env

/-- Each node's declared fallback, as passed to `safe_run`/`safe_run_sync`
(for `resume_tuning` the fallback reads the node's state snapshot). -/
def nodeFallbackAt (env : Env) (init : InterviewAgentState) (σ : List FanNode) :
    GNode → InterviewAgentState
  | GNode.gh => { emptyUpdate with worked_topics := some [] }
  | GNode.re => { emptyUpdate with resume_skills := some [] }
  | GNode.jd => { emptyUpdate with required_topics := some [] }
  | GNode.gap => { emptyUpdate with
      missing_topics := some [], overlap_topics := some [] }
  | GNode.lp => { emptyUpdate with
      learning_plan := some "Unable to generate learning plan due to an error." }
  | GNode.rt => { emptyUpdate with
      tuned_resume := some ((postGap env init σ).resume_text.getD "") }

/-- Restriction of a state to the output keys of one node: the partial
update holding exactly that node's declared output fields of `s`. -/
def restrictKeys (n : GNode) (s : InterviewAgentState) : InterviewAgentState :=
  match n with
  | GNode.gh => { emptyUpdate with worked_topics := s.worked_topics }
  | GNode.re => { emptyUpdate with resume_skills := s.resume_skills }
  | GNode.jd => { emptyUpdate with required_topics := s.required_topics }
  | GNode.gap => { emptyUpdate with
      missing_topics := s.missing_topics, overlap_topics := s.overlap_topics }
  | GNode.lp => { emptyUpdate with learning_plan := s.learning_plan }
  | GNode.rt => { emptyUpdate with tuned_resume := s.tuned_resume }

/-! ## Graph definition and validation model

The declarative graph: named nodes and directed edges over node names and
the START/END markers, as declared by `build_graph`. -/

/-- The langgraph START marker. -/
def STARTM : String := "__start__"

/-- The langgraph END marker. -/
def ENDM : String := "__end__"

/-- A declared graph: node names in declaration order and directed edges. -/
structure GraphDef where
  nodes : List String
  edges : List (String × String)
  deriving DecidableEq, Repr

/-- The graph declared by `build_graph` (agent_flow.py lines 295-314). -/
def gapGraphDef : GraphDef where
  nodes := ["github_analysis", "resume_expert", "jd_extraction",
            "gap_analysis", "learning_plan", "resume_tuning"]
  edges := [(STARTM, "github_analysis"), (STARTM, "resume_expert"),
            (STARTM, "jd_extraction"),
            ("github_analysis", "gap_analysis"),
            ("resume_expert", "gap_analysis"),
            ("jd_extraction", "gap_analysis"),
            ("gap_analysis", "learning_plan"),
            ("gap_analysis", "resume_tuning"),
            ("learning_plan", ENDM), ("resume_tuning", ENDM)]

/-- A deliberately cyclic two-node graph, used to exercise validation. -/
def cyclicGraphDef : GraphDef where
  nodes := ["a", "b"]
  edges := [("a", "b"), ("b", "a")]

/-- Structural graph errors detected at build time. -/
inductive GraphValidationError where
  | duplicateNode
  | danglingEdge
  | cycleDetected
  deriving DecidableEq, Repr

/-- One edge is well-formed: its source is a declared node or START, its
target a declared node or END. -/
def edgeOk (g : GraphDef) (e : String × String) : Bool :=
  (e.1 = STARTM || g.nodes.contains e.1) && (e.2 = ENDM || g.nodes.contains e.2)

/-- The edge relation among declared nodes (marker edges excluded): the
relation whose cycles make the graph invalid. -/
def edgeRel (g : GraphDef) (a b : String) : Prop :=
  (a, b) ∈ g.edges ∧ a ∈ g.nodes ∧ b ∈ g.nodes

/-- One-step successor set of `S` along declared-node edges. -/
def succsOf (g : GraphDef) (S : Finset String) : Finset String :=
  ((g.edges.filter fun e =>
      decide (e.1 ∈ S) && g.nodes.contains e.1 && g.nodes.contains e.2).map
    Prod.snd).toFinset

/-- One closure step: add all one-step successors. -/
def stepR (g : GraphDef) (S : Finset String) : Finset String :=
  S ∪ succsOf g S

/-- Modelled from the spec: the set of nodes reachable from `a` in at
least one step, computed as an iterated closure (enough iterations to
reach the fixpoint, bounded by the number of declared nodes). -/
def reachSet (g : GraphDef) (a : String) : Finset String :=
  (stepR g)^[g.nodes.toFinset.card + 1] (succsOf g {a})

/-- Cycle test: some declared node reaches itself in at least one step. -/
def hasCycle (g : GraphDef) : Bool :=
  g.nodes.any fun n => decide (n ∈ reachSet g n)

/-- Modelled from the spec: `build()` (spec section 4.3) — validates the
declared graph before any execution: no duplicate node name, every edge
references a declared node or the START/END markers, and no cycle among
the nodes; returns the validated graph or the corresponding
`GraphValidationError`.  The langgraph builder performing these checks is
not part of this repository's sources. -/
def build (g : GraphDef) : Except GraphValidationError GraphDef :=
  if g.nodes.Nodup then
    if g.edges.all (edgeOk g) then
      if hasCycle g then Except.error GraphValidationError.cycleDetected
      else Except.ok g
    else Except.error GraphValidationError.danglingEdge
  else Except.error GraphValidationError.duplicateNode

/-! ## Concrete sample data used by witnesses -/

/-- The list a successful GitHub call carries (the empty list for a call
that raised); used to phrase the gathered topics/languages of a repo. -/
def okList : Except String (List String) → List String
  | Except.ok l => l
  | Except.error _ => []

/-- A sample state for exercising the gap-analysis work unit. -/
def sampleGapState : InterviewAgentState :=
  { emptyUpdate with
    worked_topics := some ["python"]
    resume_skills := some ["sql"]
    required_topics := some ["python", "rust"] }

/-- The update `gap_analysis`'s work unit produces on `sampleGapState`. -/
def sampleGapResult : InterviewAgentState :=
  { emptyUpdate with
    missing_topics := some ["rust"], overlap_topics := some ["python"] }

/-- A sample initial state holding the three workflow inputs (the shape
`main.py` seeds). -/
def sampleInit : InterviewAgentState :=
  { emptyUpdate with
    job_description := some "Need python and rust."
    resume_text := some "Worked with sql."
    github_user := some "Auroshis" }

/-- A sample healthy GitHub environment: one repository with one language
and one topic. -/
def sampleGH : GHEnv :=
  { connectResult := Except.ok ()
    reposResult := Except.ok
      [{ name := "demo", langs := Except.ok ["python"],
         topics := Except.ok [] }] }

/-- A sample healthy environment: Gemini answers every prompt with one
line, GitHub is `sampleGH`. -/
def sampleEnv : Env :=
  { gemini := fun _ => Except.ok "python", gh := sampleGH }

/-- The update `github_analysis`'s work unit produces under `sampleEnv`. -/
def sampleGHResult : InterviewAgentState :=
  { emptyUpdate with worked_topics := some ["python"] }

/-- A sample environment whose GitHub repository listing raises. -/
def sampleEnvGHFail : Env :=
  { gemini := fun _ => Except.ok "python"
    gh := { connectResult := Except.ok ()
            reposResult := Except.error "HTTP 500" } }

/-! ## Shape lemmas: every node update sets exactly its declared keys -/

/-- Merging with an absent update key keeps the old value. -/
lemma mergeField_none {α : Type} (old : Option α) : mergeField old none = old := rfl

/-- Merging with a present update key overwrites. -/
lemma mergeField_some {α : Type} (old : Option α) (v : α) :
    mergeField old (some v) = some v := rfl

/-- Any successful result of the GitHub `try` body sets exactly
`worked_topics`. -/
lemma ghBody_ok_shape (env : Env) (u : InterviewAgentState)
    (h : ghBody env = Except.ok u) :
    ∃ ws, u = { emptyUpdate with worked_topics := some ws } := by
  unfold ghBody at h
  split at h
  · cases h
  · split at h
    · cases h
    · exact ⟨_, (Except.ok.inj h).symm⟩

/-- A successful `run` result of `github_analysis_node` sets exactly
`worked_topics`. -/
lemma github_analysis_run_ok_shape (s : InterviewAgentState) (env : Env)
    (u : InterviewAgentState) (h : (github_analysis_run s env).1 = Except.ok u) :
    ∃ ws, u = { emptyUpdate with worked_topics := some ws } := by
  unfold github_analysis_run at h
  split at h
  · cases h
  · split at h
    · cases h
    · exact ghBody_ok_shape env u h

/-- Node `github_analysis_node` always sets exactly `worked_topics`. -/
lemma github_analysis_node_shape (s : InterviewAgentState) (env : Env) :
    ∃ ws, github_analysis_node s env = { emptyUpdate with worked_topics := some ws } := by
  unfold github_analysis_node safe_run
  split
  next r heq => exact github_analysis_run_ok_shape s env r heq
  next e heq => exact ⟨[], rfl⟩

/-- A successful `run` result of `resume_expert_node` sets exactly
`resume_skills`. -/
lemma resume_expert_run_ok_shape (s : InterviewAgentState) (env : Env)
    (u : InterviewAgentState) (h : resume_expert_run s env = Except.ok u) :
    ∃ sk, u = { emptyUpdate with resume_skills := some sk } := by
  unfold resume_expert_run at h
  split at h
  · cases h
  · split at h
    · cases h
    · exact ⟨_, (Except.ok.inj h).symm⟩

/-- Node `resume_expert_node` always sets exactly `resume_skills`. -/
lemma resume_expert_node_shape (s : InterviewAgentState) (env : Env) :
    ∃ sk, resume_expert_node s env = { emptyUpdate with resume_skills := some sk } := by
  unfold resume_expert_node safe_run
  split
  next r heq => exact resume_expert_run_ok_shape s env r heq
  next e heq => exact ⟨[], rfl⟩

/-- A successful `run` result of `jd_extraction_node` sets exactly
`required_topics`. -/
lemma jd_extraction_run_ok_shape (s : InterviewAgentState) (env : Env)
    (u : InterviewAgentState) (h : jd_extraction_run s env = Except.ok u) :
    ∃ ts, u = { emptyUpdate with required_topics := some ts } := by
  unfold jd_extraction_run at h
  split at h
  · cases h
  · split at h
    · cases h
    · exact ⟨_, (Except.ok.inj h).symm⟩

/-- Node `jd_extraction_node` always sets exactly `required_topics`. -/
lemma jd_extraction_node_shape (s : InterviewAgentState) (env : Env) :
    ∃ ts, jd_extraction_node s env = { emptyUpdate with required_topics := some ts } := by
  unfold jd_extraction_node safe_run
  split
  next r heq => exact jd_extraction_run_ok_shape s env r heq
  next e heq => exact ⟨[], rfl⟩

/-- Node `gap_analysis_node` computes exactly the set difference and
intersection updates (its work unit cannot raise). -/
lemma gap_analysis_node_eq (s : InterviewAgentState) :
    gap_analysis_node s = { emptyUpdate with
      missing_topics := some (pySetDiff (s.required_topics.getD [])
        (s.worked_topics.getD [] ++ s.resume_skills.getD []))
      overlap_topics := some (pySetInter (s.required_topics.getD [])
        (s.worked_topics.getD [] ++ s.resume_skills.getD [])) } := rfl

/-- A successful `run` result of `learning_plan_node` sets exactly
`learning_plan`. -/
lemma learning_plan_run_ok_shape (s : InterviewAgentState) (env : Env)
    (u : InterviewAgentState) (h : learning_plan_run s env = Except.ok u) :
    ∃ p, u = { emptyUpdate with learning_plan := some p } := by
  unfold learning_plan_run at h
  split at h
  · cases h
  · exact ⟨_, (Except.ok.inj h).symm⟩

/-- Node `learning_plan_node` always sets exactly `learning_plan`. -/
lemma learning_plan_node_shape (s : InterviewAgentState) (env : Env) :
    ∃ p, learning_plan_node s env = { emptyUpdate with learning_plan := some p } := by
  unfold learning_plan_node safe_run
  split
  next r heq => exact learning_plan_run_ok_shape s env r heq
  next e heq => exact ⟨_, rfl⟩

/-- A successful `run` result of `resume_tuning_node` sets exactly
`tuned_resume`. -/
lemma resume_tuning_run_ok_shape (s : InterviewAgentState) (env : Env)
    (u : InterviewAgentState) (h : resume_tuning_run s env = Except.ok u) :
    ∃ t, u = { emptyUpdate with tuned_resume := some t } := by
  unfold resume_tuning_run at h
  split at h
  · cases h
  · exact ⟨_, (Except.ok.inj h).symm⟩

/-- Node `resume_tuning_node` always sets exactly `tuned_resume`. -/
lemma resume_tuning_node_shape (s : InterviewAgentState) (env : Env) :
    ∃ t, resume_tuning_node s env = { emptyUpdate with tuned_resume := some t } := by
  unfold resume_tuning_node safe_run
  split
  next r heq => exact resume_tuning_run_ok_shape s env r heq
  next e heq => exact ⟨_, rfl⟩

/-! ## Claim theorems -/

/-- C1: for every node name, work unit, and declared fallback, the node
executor (`safe_run` for async work units, `safe_run_sync` for sync ones)
returns the work unit's result when the work unit completes normally, and
when the work unit raises any exception it returns the declared fallback
as the result — the error is never propagated (both wrappers are total
functions into the result type). -/
theorem safe_run_result_or_fallback {α : Type} (node_name : String)
    (fn : Unit → Except String α) (fallback : α) :
    (∀ r, fn () = Except.ok r →
      safe_run node_name fn fallback = r ∧ safe_run_sync node_name fn fallback = r)
  ∧ (∀ e, fn () = Except.error e →
      safe_run node_name fn fallback = fallback
        ∧ safe_run_sync node_name fn fallback = fallback) := by
  constructor
  · intro r h
    unfold safe_run safe_run_sync
    rw [h]
    exact ⟨rfl, rfl⟩
  · intro e h
    unfold safe_run safe_run_sync
    rw [h]
    exact ⟨rfl, rfl⟩

/-- Witness for C1 at concrete inputs: a normally completing work unit
yields its result, a raising one yields the fallback. -/
theorem safe_run_result_or_fallback_witness :
    safe_run "demo" (fun _ => (Except.ok [7] : Except String (List Nat))) [] = [7]
  ∧ safe_run_sync "demo" (fun _ => (Except.error "boom" : Except String (List Nat)))
      [0] = [0] :=
  ⟨((safe_run_result_or_fallback "demo" (fun _ => Except.ok [7]) []).1 [7] rfl).1,
   ((safe_run_result_or_fallback "demo" (fun _ => Except.error "boom") [0]).2
      "boom" rfl).2⟩

/-- C7: merging a partial update sets or overwrites exactly the keys
present in the update and leaves every other field unchanged; in
particular merging `gap_analysis`'s update changes only `missing_topics`
and `overlap_topics`, and merging `resume_expert`'s update changes only
`resume_skills`. -/
theorem merge_overwrites_exactly_update_keys :
    (∀ s u : InterviewAgentState,
      (mergeState s u).job_description
          = (if u.job_description.isSome then u.job_description else s.job_description)
        ∧ (mergeState s u).resume_text
          = (if u.resume_text.isSome then u.resume_text else s.resume_text)
        ∧ (mergeState s u).github_user
          = (if u.github_user.isSome then u.github_user else s.github_user)
        ∧ (mergeState s u).worked_topics
          = (if u.worked_topics.isSome then u.worked_topics else s.worked_topics)
        ∧ (mergeState s u).resume_skills
          = (if u.resume_skills.isSome then u.resume_skills else s.resume_skills)
        ∧ (mergeState s u).required_topics
          = (if u.required_topics.isSome then u.required_topics else s.required_topics)
        ∧ (mergeState s u).missing_topics
          = (if u.missing_topics.isSome then u.missing_topics else s.missing_topics)
        ∧ (mergeState s u).overlap_topics
          = (if u.overlap_topics.isSome then u.overlap_topics else s.overlap_topics)
        ∧ (mergeState s u).learning_plan
          = (if u.learning_plan.isSome then u.learning_plan else s.learning_plan)
        ∧ (mergeState s u).tuned_resume
          = (if u.tuned_resume.isSome then u.tuned_resume else s.tuned_resume))
  ∧ (∀ s : InterviewAgentState,
      (mergeState s (gap_analysis_node s)).missing_topics
          = (gap_analysis_node s).missing_topics
        ∧ (mergeState s (gap_analysis_node s)).overlap_topics
          = (gap_analysis_node s).overlap_topics
        ∧ (mergeState s (gap_analysis_node s)).job_description = s.job_description
        ∧ (mergeState s (gap_analysis_node s)).resume_text = s.resume_text
        ∧ (mergeState s (gap_analysis_node s)).github_user = s.github_user
        ∧ (mergeState s (gap_analysis_node s)).worked_topics = s.worked_topics
        ∧ (mergeState s (gap_analysis_node s)).resume_skills = s.resume_skills
        ∧ (mergeState s (gap_analysis_node s)).required_topics = s.required_topics
        ∧ (mergeState s (gap_analysis_node s)).learning_plan = s.learning_plan
        ∧ (mergeState s (gap_analysis_node s)).tuned_resume = s.tuned_resume)
  ∧ (∀ (s : InterviewAgentState) (env : Env),
      (mergeState s (resume_expert_node s env)).resume_skills
          = (resume_expert_node s env).resume_skills
        ∧ (mergeState s (resume_expert_node s env)).job_description = s.job_description
        ∧ (mergeState s (resume_expert_node s env)).resume_text = s.resume_text
        ∧ (mergeState s (resume_expert_node s env)).github_user = s.github_user
        ∧ (mergeState s (resume_expert_node s env)).worked_topics = s.worked_topics
        ∧ (mergeState s (resume_expert_node s env)).required_topics = s.required_topics
        ∧ (mergeState s (resume_expert_node s env)).missing_topics = s.missing_topics
        ∧ (mergeState s (resume_expert_node s env)).overlap_topics = s.overlap_topics
        ∧ (mergeState s (resume_expert_node s env)).learning_plan = s.learning_plan
        ∧ (mergeState s (resume_expert_node s env)).tuned_resume = s.tuned_resume) := by
  refine ⟨?_, ?_, ?_⟩
  · intro s u
    refine ⟨?_, ?_, ?_, ?_, ?_, ?_, ?_, ?_, ?_, ?_⟩ <;>
      simp only [mergeState] <;>
      first
        | (cases u.job_description <;> rfl)
        | (cases u.resume_text <;> rfl)
        | (cases u.github_user <;> rfl)
        | (cases u.worked_topics <;> rfl)
        | (cases u.resume_skills <;> rfl)
        | (cases u.required_topics <;> rfl)
        | (cases u.missing_topics <;> rfl)
        | (cases u.overlap_topics <;> rfl)
        | (cases u.learning_plan <;> rfl)
        | (cases u.tuned_resume <;> rfl)
  · intro s
    exact ⟨rfl, rfl, rfl, rfl, rfl, rfl, rfl, rfl, rfl, rfl⟩
  · intro s env
    obtain ⟨sk, hsk⟩ := resume_expert_node_shape s env
    rw [hsk]
    exact ⟨rfl, rfl, rfl, rfl, rfl, rfl, rfl, rfl, rfl, rfl⟩

/-- C4 counterexample: on the state containing no keys at all (so
`worked_topics`, `resume_skills` and `required_topics` were never produced
by any predecessor), `gap_analysis`'s work unit does not fail — it
silently substitutes the defaults and returns empty topic lists.  Reading
a never-produced field is therefore not treated as a fatal error. -/
theorem gap_read_of_missing_field_not_fatal :
    emptyUpdate.worked_topics = none
  ∧ emptyUpdate.resume_skills = none
  ∧ emptyUpdate.required_topics = none
  ∧ gap_analysis_run emptyUpdate
      = Except.ok { emptyUpdate with
          missing_topics := some [], overlap_topics := some [] } :=
  ⟨rfl, rfl, rfl, rfl⟩

/-- C4 amended: the field reads of `gap_analysis`, `learning_plan` and
`resume_tuning` use `dict.get` with a default (`[]` or `""`), so a state
missing one of those fields is handled exactly as if it held the default
value: the work unit never raises on a missing field and silently
substitutes the default. -/
theorem node_reads_silently_default (s : InterviewAgentState) (env : Env) :
    gap_analysis_run s
        = gap_analysis_run { s with
            worked_topics := some (s.worked_topics.getD [])
            resume_skills := some (s.resume_skills.getD [])
            required_topics := some (s.required_topics.getD []) }
  ∧ (∃ u, gap_analysis_run s = Except.ok u)
  ∧ learning_plan_run s env
      = learning_plan_run { s with
          missing_topics := some (s.missing_topics.getD []) } env
  ∧ resume_tuning_run s env
      = resume_tuning_run { s with
          overlap_topics := some (s.overlap_topics.getD [])
          job_description := some (s.job_description.getD "")
          resume_text := some (s.resume_text.getD "") } env :=
  ⟨rfl, ⟨_, rfl⟩, rfl, rfl⟩

/-- C9: whenever `gap_analysis`'s work unit succeeds, its output satisfies,
as sets: `missing_topics` = required minus (worked ∪ resume skills),
`overlap_topics` = required intersected with that union, the two are
disjoint, and their union is exactly the required set. -/
theorem gap_analysis_set_semantics (s : InterviewAgentState)
    (u : InterviewAgentState) (h : gap_analysis_run s = Except.ok u) :
    ∃ missing overlap,
      u.missing_topics = some missing
    ∧ u.overlap_topics = some overlap
    ∧ (∀ x, x ∈ missing ↔ x ∈ s.required_topics.getD []
        ∧ ¬ (x ∈ s.worked_topics.getD [] ∨ x ∈ s.resume_skills.getD []))
    ∧ (∀ x, x ∈ overlap ↔ x ∈ s.required_topics.getD []
        ∧ (x ∈ s.worked_topics.getD [] ∨ x ∈ s.resume_skills.getD []))
    ∧ (∀ x, ¬ (x ∈ missing ∧ x ∈ overlap))
    ∧ (∀ x, (x ∈ missing ∨ x ∈ overlap) ↔ x ∈ s.required_topics.getD []) := by
  have hu : u = { emptyUpdate with
      missing_topics := some (pySetDiff (s.required_topics.getD [])
        (s.worked_topics.getD [] ++ s.resume_skills.getD []))
      overlap_topics := some (pySetInter (s.required_topics.getD [])
        (s.worked_topics.getD [] ++ s.resume_skills.getD [])) } :=
    (Except.ok.inj h).symm
  subst hu
  refine ⟨_, _, rfl, rfl, ?_, ?_, ?_, ?_⟩
  · intro x
    simp [pySetDiff, List.mem_filter, List.mem_dedup]
  · intro x
    simp [pySetInter, List.mem_filter, List.mem_dedup]
  · intro x
    simp only [pySetDiff, pySetInter, List.mem_filter, List.mem_dedup]
    rintro ⟨⟨-, hnot⟩, -, hyes⟩
    rw [hyes] at hnot
    cases hnot
  · intro x
    constructor
    · rintro (hx | hx) <;> exact (List.mem_filter.mp hx).1 |> List.mem_dedup.mp
    · intro hx
      by_cases hw : (s.worked_topics.getD [] ++ s.resume_skills.getD []).contains x
      · right
        exact List.mem_filter.mpr ⟨List.mem_dedup.mpr hx, hw⟩
      · left
        refine List.mem_filter.mpr ⟨List.mem_dedup.mpr hx, ?_⟩
        simpa using hw

/-- Witness for C9 at a concrete state: required = ⟨python, rust⟩, worked =
⟨python⟩, skills = ⟨sql⟩. -/
theorem gap_analysis_set_semantics_witness :
    ∃ missing overlap,
      sampleGapResult.missing_topics = some missing
    ∧ sampleGapResult.overlap_topics = some overlap
    ∧ (∀ x, x ∈ missing ↔ x ∈ sampleGapState.required_topics.getD []
        ∧ ¬ (x ∈ sampleGapState.worked_topics.getD []
              ∨ x ∈ sampleGapState.resume_skills.getD []))
    ∧ (∀ x, x ∈ overlap ↔ x ∈ sampleGapState.required_topics.getD []
        ∧ (x ∈ sampleGapState.worked_topics.getD []
            ∨ x ∈ sampleGapState.resume_skills.getD []))
    ∧ (∀ x, ¬ (x ∈ missing ∧ x ∈ overlap))
    ∧ (∀ x, (x ∈ missing ∨ x ∈ overlap)
        ↔ x ∈ sampleGapState.required_topics.getD []) :=
  gap_analysis_set_semantics sampleGapState sampleGapResult (by decide)

/-- C8: in `github_analysis`'s work unit, once `connect()` has succeeded
(and the `github_user` read before it did not raise), the session action
trace is exactly connect, then the body's calls, then `close` — so
`close()` is invoked on every exit path, whether the body returned
normally or any `call()` raised, and the last session action is always
`close`. -/
theorem github_close_on_all_exit_paths (s : InterviewAgentState) (env : Env)
    (user : String) (hu : s.github_user = some user)
    (hc : env.gh.connectResult = Except.ok ()) :
    (github_analysis_run s env).2
        = GHAction.connect :: (ghBodyTrace env ++ [GHAction.close])
  ∧ (github_analysis_run s env).2.getLast? = some GHAction.close := by
  have h1 : (github_analysis_run s env).2
      = GHAction.connect :: (ghBodyTrace env ++ [GHAction.close]) := by
    unfold github_analysis_run
    rw [hu, hc]
  refine ⟨h1, ?_⟩
  rw [h1]
  rw [show GHAction.connect :: (ghBodyTrace env ++ [GHAction.close])
      = (GHAction.connect :: ghBodyTrace env) ++ [GHAction.close] from rfl]
  rw [List.getLast?_concat]

/-- Witness for C8 at a concrete state and environment, including one in
which the repository listing raises after a successful connect. -/
theorem github_close_on_all_exit_paths_witness :
    (github_analysis_run sampleInit sampleEnv).2.getLast? = some GHAction.close
  ∧ (github_analysis_run sampleInit sampleEnvGHFail).2.getLast?
      = some GHAction.close :=
  ⟨(github_close_on_all_exit_paths sampleInit sampleEnv "Auroshis" rfl rfl).2,
   (github_close_on_all_exit_paths sampleInit sampleEnvGHFail "Auroshis" rfl rfl).2⟩

/-- When the per-repository loop completes without an exception, every
call succeeded and the accumulated topic/language lists gather exactly the
per-repository results. -/
lemma ghLoopRes_ok (repos : List RepoInfo) (tops langs : List String)
    (h : ghLoopRes repos = Except.ok (tops, langs)) :
    (∀ r ∈ repos, (∃ ls, r.langs = Except.ok ls) ∧ (∃ ts, r.topics = Except.ok ts))
  ∧ (∀ x, x ∈ tops ↔ ∃ r ∈ repos, x ∈ okList r.topics)
  ∧ (∀ x, x ∈ langs ↔ ∃ r ∈ repos, x ∈ okList r.langs) := by
  induction repos generalizing tops langs with
  | nil =>
    unfold ghLoopRes at h
    obtain ⟨h1, h2⟩ := Prod.mk.inj (Except.ok.inj h)
    subst h1
    subst h2
    refine ⟨by simp, by simp, by simp⟩
  | cons r rs ih =>
    unfold ghLoopRes at h
    cases hls : r.langs with
    | error e =>
      simp only [hls] at h
      cases h
    | ok ls =>
      simp only [hls] at h
      cases hts : r.topics with
      | error e =>
        simp only [hts] at h
        cases h
      | ok ts =>
        simp only [hts] at h
        cases hrest : ghLoopRes rs with
        | error e =>
          simp only [hrest] at h
          cases h
        | ok pr =>
          obtain ⟨topsRest, langsRest⟩ := pr
          simp only [hrest] at h
          obtain ⟨h1, h2⟩ := Prod.mk.inj (Except.ok.inj h)
          subst h1
          subst h2
          obtain ⟨ihok, ihtops, ihlangs⟩ := ih topsRest langsRest hrest
          refine ⟨?_, ?_, ?_⟩
          · intro r' hr'
            rcases List.mem_cons.mp hr' with hr' | hr'
            · subst hr'
              exact ⟨⟨ls, hls⟩, ⟨ts, hts⟩⟩
            · exact ihok r' hr'
          · intro x
            simp only [List.mem_append, ihtops x, List.mem_cons]
            constructor
            · rintro (hx | ⟨r', hr', hx⟩)
              · exact ⟨r, Or.inl rfl, by simp only [okList, hts]; exact hx⟩
              · exact ⟨r', Or.inr hr', hx⟩
            · rintro ⟨r', hr' | hr', hx⟩
              · subst hr'
                simp only [okList, hts] at hx
                exact Or.inl hx
              · exact Or.inr ⟨r', hr', hx⟩
          · intro x
            simp only [List.mem_append, ihlangs x, List.mem_cons]
            constructor
            · rintro (hx | ⟨r', hr', hx⟩)
              · exact ⟨r, Or.inl rfl, by simp only [okList, hls]; exact hx⟩
              · exact ⟨r', Or.inr hr', hx⟩
            · rintro ⟨r', hr' | hr', hx⟩
              · subst hr'
                simp only [okList, hls] at hx
                exact Or.inl hx
              · exact Or.inr ⟨r', hr', hx⟩

/-- C10: whenever `github_analysis`'s work unit succeeds, the returned
`worked_topics` list is sorted ascending, duplicate-free, and its elements
are exactly the union of all repository topics and all repository
languages gathered across the user's repositories (every per-repository
call having succeeded). -/
theorem github_worked_topics_correct (s : InterviewAgentState) (env : Env)
    (u : InterviewAgentState) (h : (github_analysis_run s env).1 = Except.ok u) :
    ∃ repos ws,
      env.gh.reposResult = Except.ok repos
    ∧ u.worked_topics = some ws
    ∧ List.Sorted (fun a b => a ≤ b) ws
    ∧ ws.Nodup
    ∧ (∀ r ∈ repos, (∃ ls, r.langs = Except.ok ls) ∧ (∃ ts, r.topics = Except.ok ts))
    ∧ (∀ x, x ∈ ws ↔ ∃ r ∈ repos, x ∈ okList r.topics ∨ x ∈ okList r.langs) := by
  unfold github_analysis_run at h
  split at h
  · cases h
  · split at h
    · cases h
    · unfold ghBody at h
      split at h
      · cases h
      · split at h
        · cases h
        · rename_i repos hrepos p tops langs hloop
          have hu := (Except.ok.inj h).symm
          subst hu
          obtain ⟨hcalls, htops, hlangs⟩ := ghLoopRes_ok repos tops langs hloop
          refine ⟨repos, pySorted ((tops ++ langs).dedup), hrepos, rfl, ?_, ?_, hcalls, ?_⟩
          · exact List.sorted_insertionSort _ _
          · exact (List.perm_insertionSort _ _).nodup_iff.mpr (List.nodup_dedup _)
          · intro x
            unfold pySorted
            rw [(List.perm_insertionSort _ _).mem_iff, List.mem_dedup,
              List.mem_append, htops x, hlangs x]
            constructor
            · rintro (⟨r', hr', hx⟩ | ⟨r', hr', hx⟩)
              · exact ⟨r', hr', Or.inl hx⟩
              · exact ⟨r', hr', Or.inr hx⟩
            · rintro ⟨r', hr', hx | hx⟩
              · exact Or.inl ⟨r', hr', hx⟩
              · exact Or.inr ⟨r', hr', hx⟩

/-- Witness for C10 at a concrete environment with one repository
(no topics, languages = ⟨python⟩). -/
theorem github_worked_topics_correct_witness :
    ∃ repos ws,
      sampleEnv.gh.reposResult = Except.ok repos
    ∧ sampleGHResult.worked_topics = some ws
    ∧ List.Sorted (fun a b => a ≤ b) ws
    ∧ ws.Nodup
    ∧ (∀ r ∈ repos, (∃ ls, r.langs = Except.ok ls) ∧ (∃ ts, r.topics = Except.ok ts))
    ∧ (∀ x, x ∈ ws ↔ ∃ r ∈ repos, x ∈ okList r.topics ∨ x ∈ okList r.langs) :=
  github_worked_topics_correct sampleInit sampleEnv sampleGHResult rfl

/-! ## Scheduler lemmas -/

/-- Behavior of `safe_run` on a normally completing work unit. -/
lemma safe_run_of_ok {α : Type} (n : String) (fn : Unit → Except String α)
    (fb r : α) (h : fn () = Except.ok r) : safe_run n fn fb = r := by
  unfold safe_run
  rw [h]

/-- Behavior of `safe_run` on a raising work unit. -/
lemma safe_run_of_error {α : Type} (n : String) (fn : Unit → Except String α)
    (fb : α) (e : String) (h : fn () = Except.error e) : safe_run n fn fb = fb := by
  unfold safe_run
  rw [h]

/-- Behavior of `safe_run_sync` on a normally completing work unit. -/
lemma safe_run_sync_of_ok {α : Type} (n : String) (fn : Unit → Except String α)
    (fb r : α) (h : fn () = Except.ok r) : safe_run_sync n fn fb = r := by
  unfold safe_run_sync
  rw [h]

/-- Merging any two distinct fan-out updates commutes: they write disjoint
key sets (worked_topics / resume_skills / required_topics). -/
lemma fanoutUpdate_comm (env : Env) (init : InterviewAgentState)
    (x y : FanNode) (s : InterviewAgentState) :
    mergeState (mergeState s (fanoutUpdate env init x)) (fanoutUpdate env init y)
      = mergeState (mergeState s (fanoutUpdate env init y)) (fanoutUpdate env init x) := by
  obtain ⟨w, hw⟩ := github_analysis_node_shape init env
  obtain ⟨k, hk⟩ := resume_expert_node_shape init env
  obtain ⟨t, ht⟩ := jd_extraction_node_shape init env
  cases x <;> cases y <;> simp only [fanoutUpdate, hw, hk, ht] <;> rfl

/-- Merging the two tail updates commutes: they write disjoint key sets
(learning_plan / tuned_resume). -/
lemma tailUpdate_comm (env : Env) (s2 : InterviewAgentState)
    (x y : TailNode) (s : InterviewAgentState) :
    mergeState (mergeState s (tailUpdate env s2 x)) (tailUpdate env s2 y)
      = mergeState (mergeState s (tailUpdate env s2 y)) (tailUpdate env s2 x) := by
  obtain ⟨p, hp⟩ := learning_plan_node_shape s2 env
  obtain ⟨t, ht⟩ := resume_tuning_node_shape s2 env
  cases x <;> cases y <;> simp only [tailUpdate, hp, ht] <;> rfl

/-- The join snapshot does not depend on the fan-out completion order. -/
lemma gapSnapshot_perm (env : Env) (init : InterviewAgentState)
    (σ : List FanNode) (hσ : σ.Perm fanOrder) :
    gapSnapshot env init σ = gapSnapshot env init fanOrder := by
  unfold gapSnapshot
  exact hσ.foldl_eq' (fun x _ y _ z => fanoutUpdate_comm env init x y z) init

/-- The post-join state does not depend on the fan-out completion order. -/
lemma postGap_perm (env : Env) (init : InterviewAgentState)
    (σ : List FanNode) (hσ : σ.Perm fanOrder) :
    postGap env init σ = postGap env init fanOrder := by
  unfold postGap
  rw [gapSnapshot_perm env init σ hσ]

/-- A full run does not depend on either completion order. -/
lemma runGapGraph_perm (env : Env) (init : InterviewAgentState)
    (σ : List FanNode) (τ : List TailNode)
    (hσ : σ.Perm fanOrder) (hτ : τ.Perm tailOrder) :
    runGapGraph env init σ τ = runGapGraph env init fanOrder tailOrder := by
  unfold runGapGraph
  rw [postGap_perm env init σ hσ]
  exact hτ.foldl_eq'
    (fun x _ y _ z => tailUpdate_comm env (postGap env init fanOrder) x y z) _

/-- C2: whatever order the three fan-out nodes complete in, the join node
`gap_analysis` runs only after all of them (the model dispatches it only
once all three updates are merged), and the snapshot it receives carries
each fan-out node's merged result: its `worked_topics`, `resume_skills`
and `required_topics` are exactly the outputs of `github_analysis`,
`resume_expert` and `jd_extraction`, and all three are present. -/
theorem join_observes_all_fanout_results (env : Env) (init : InterviewAgentState)
    (σ : List FanNode) (hσ : σ.Perm fanOrder) :
    (gapSnapshot env init σ).worked_topics = (github_analysis_node init env).worked_topics
  ∧ (gapSnapshot env init σ).resume_skills = (resume_expert_node init env).resume_skills
  ∧ (gapSnapshot env init σ).required_topics = (jd_extraction_node init env).required_topics
  ∧ (gapSnapshot env init σ).worked_topics.isSome = true
  ∧ (gapSnapshot env init σ).resume_skills.isSome = true
  ∧ (gapSnapshot env init σ).required_topics.isSome = true := by
  rw [gapSnapshot_perm env init σ hσ]
  obtain ⟨w, hw⟩ := github_analysis_node_shape init env
  obtain ⟨k, hk⟩ := resume_expert_node_shape init env
  obtain ⟨t, ht⟩ := jd_extraction_node_shape init env
  unfold gapSnapshot fanOrder
  simp only [List.foldl_cons, List.foldl_nil, fanoutUpdate, hw, hk, ht]
  exact ⟨rfl, rfl, rfl, rfl, rfl, rfl⟩

/-- Witness for C2 with a non-canonical completion order (resume expert,
then JD extraction, then GitHub) on concrete data. -/
theorem join_observes_all_fanout_results_witness :
    (gapSnapshot sampleEnv sampleInit [FanNode.re, FanNode.jd, FanNode.gh]).worked_topics
        = (github_analysis_node sampleInit sampleEnv).worked_topics
  ∧ (gapSnapshot sampleEnv sampleInit [FanNode.re, FanNode.jd, FanNode.gh]).resume_skills
        = (resume_expert_node sampleInit sampleEnv).resume_skills
  ∧ (gapSnapshot sampleEnv sampleInit [FanNode.re, FanNode.jd, FanNode.gh]).required_topics
        = (jd_extraction_node sampleInit sampleEnv).required_topics
  ∧ (gapSnapshot sampleEnv sampleInit [FanNode.re, FanNode.jd, FanNode.gh]).worked_topics.isSome = true
  ∧ (gapSnapshot sampleEnv sampleInit [FanNode.re, FanNode.jd, FanNode.gh]).resume_skills.isSome = true
  ∧ (gapSnapshot sampleEnv sampleInit [FanNode.re, FanNode.jd, FanNode.gh]).required_topics.isSome = true :=
  join_observes_all_fanout_results sampleEnv sampleInit
    [FanNode.re, FanNode.jd, FanNode.gh] (by decide)

/-- C5: with the graph's disjoint-key writers and deterministic work units,
the final state is unique — identical under every ordering of the
concurrent fan-out completions (and of the two tail completions), and a
re-run with the same orders is the reflexive instance of this equality. -/
theorem scheduler_order_independent (env : Env) (init : InterviewAgentState)
    (σ σ' : List FanNode) (τ τ' : List TailNode)
    (hσ : σ.Perm fanOrder) (hσ' : σ'.Perm fanOrder)
    (hτ : τ.Perm tailOrder) (hτ' : τ'.Perm tailOrder) :
    runGapGraph env init σ τ = runGapGraph env init σ' τ' := by
  rw [runGapGraph_perm env init σ τ hσ hτ, runGapGraph_perm env init σ' τ' hσ' hτ']

/-- Witness for C5: two fully reversed completion orders on concrete data
produce the same final state. -/
theorem scheduler_order_independent_witness :
    runGapGraph sampleEnv sampleInit [FanNode.jd, FanNode.re, FanNode.gh]
        [TailNode.rt, TailNode.lp]
      = runGapGraph sampleEnv sampleInit fanOrder tailOrder :=
  scheduler_order_independent sampleEnv sampleInit
    [FanNode.jd, FanNode.re, FanNode.gh] fanOrder
    [TailNode.rt, TailNode.lp] tailOrder
    (by decide) (by decide) (by decide) (by decide)

/-- Each output field of the final state is exactly the corresponding
field of the one node update that writes it. -/
lemma runGapGraph_fields (env : Env) (init : InterviewAgentState)
    (σ : List FanNode) (τ : List TailNode)
    (hσ : σ.Perm fanOrder) (hτ : τ.Perm tailOrder) :
    (runGapGraph env init σ τ).worked_topics
        = (github_analysis_node init env).worked_topics
  ∧ (runGapGraph env init σ τ).resume_skills
        = (resume_expert_node init env).resume_skills
  ∧ (runGapGraph env init σ τ).required_topics
        = (jd_extraction_node init env).required_topics
  ∧ (runGapGraph env init σ τ).missing_topics
        = (gap_analysis_node (gapSnapshot env init σ)).missing_topics
  ∧ (runGapGraph env init σ τ).overlap_topics
        = (gap_analysis_node (gapSnapshot env init σ)).overlap_topics
  ∧ (runGapGraph env init σ τ).learning_plan
        = (learning_plan_node (postGap env init σ) env).learning_plan
  ∧ (runGapGraph env init σ τ).tuned_resume
        = (resume_tuning_node (postGap env init σ) env).tuned_resume := by
  rw [runGapGraph_perm env init σ τ hσ hτ, gapSnapshot_perm env init σ hσ,
    postGap_perm env init σ hσ]
  obtain ⟨w, hw⟩ := github_analysis_node_shape init env
  obtain ⟨k, hk⟩ := resume_expert_node_shape init env
  obtain ⟨t, ht⟩ := jd_extraction_node_shape init env
  obtain ⟨p, hp⟩ := learning_plan_node_shape (postGap env init fanOrder) env
  obtain ⟨tr, htr⟩ := resume_tuning_node_shape (postGap env init fanOrder) env
  unfold runGapGraph tailOrder
  simp only [List.foldl_cons, List.foldl_nil, tailUpdate, hp, htr]
  unfold postGap
  simp only [gap_analysis_node_eq]
  unfold gapSnapshot fanOrder
  simp only [List.foldl_cons, List.foldl_nil, fanoutUpdate, hw, hk, ht]
  exact ⟨rfl, rfl, rfl, rfl, rfl, rfl, rfl⟩

/-- C3: even when a node's work unit raises (for any node `n` and any
error), the run still produces a final state (the model's run function is
total); the failed node's declared fallback appears verbatim in the final
state on its output keys, and every node whose work unit succeeded
contributes its real result on its output keys. -/
theorem single_node_failure_contained (env : Env) (init : InterviewAgentState)
    (σ : List FanNode) (τ : List TailNode) (n : GNode) (e : String)
    (hσ : σ.Perm fanOrder) (hτ : τ.Perm tailOrder)
    (hfail : nodeRunAt env init σ n = Except.error e) :
    restrictKeys n (runGapGraph env init σ τ)
        = restrictKeys n (nodeFallbackAt env init σ n)
  ∧ (∀ m u, nodeRunAt env init σ m = Except.ok u →
      restrictKeys m (runGapGraph env init σ τ) = restrictKeys m u) := by
  obtain ⟨f1, f2, f3, f4, f5, f6, f7⟩ := runGapGraph_fields env init σ τ hσ hτ
  constructor
  · cases n with
    | gh =>
      simp only [nodeRunAt] at hfail
      have hnode : github_analysis_node init env
          = { emptyUpdate with worked_topics := some [] } :=
        safe_run_of_error _ _ _ e hfail
      unfold restrictKeys nodeFallbackAt
      rw [f1, hnode]
    | re =>
      simp only [nodeRunAt] at hfail
      have hnode : resume_expert_node init env
          = { emptyUpdate with resume_skills := some [] } :=
        safe_run_of_error _ _ _ e hfail
      unfold restrictKeys nodeFallbackAt
      rw [f2, hnode]
    | jd =>
      simp only [nodeRunAt] at hfail
      have hnode : jd_extraction_node init env
          = { emptyUpdate with required_topics := some [] } :=
        safe_run_of_error _ _ _ e hfail
      unfold restrictKeys nodeFallbackAt
      rw [f3, hnode]
    | gap =>
      simp only [nodeRunAt] at hfail
      cases hfail
    | lp =>
      simp only [nodeRunAt] at hfail
      have hnode : learning_plan_node (postGap env init σ) env
          = { emptyUpdate with
              learning_plan :=
                some "Unable to generate learning plan due to an error." } :=
        safe_run_of_error _ _ _ e hfail
      unfold restrictKeys nodeFallbackAt
      rw [f6, hnode]
    | rt =>
      simp only [nodeRunAt] at hfail
      have hnode : resume_tuning_node (postGap env init σ) env
          = { emptyUpdate with
              tuned_resume := some ((postGap env init σ).resume_text.getD "") } :=
        safe_run_of_error _ _ _ e hfail
      unfold restrictKeys nodeFallbackAt
      rw [f7, hnode]
  · intro m u hok
    cases m with
    | gh =>
      simp only [nodeRunAt] at hok
      have hnode : github_analysis_node init env = u := safe_run_of_ok _ _ _ u hok
      unfold restrictKeys
      rw [f1, hnode]
    | re =>
      simp only [nodeRunAt] at hok
      have hnode : resume_expert_node init env = u := safe_run_of_ok _ _ _ u hok
      unfold restrictKeys
      rw [f2, hnode]
    | jd =>
      simp only [nodeRunAt] at hok
      have hnode : jd_extraction_node init env = u := safe_run_of_ok _ _ _ u hok
      unfold restrictKeys
      rw [f3, hnode]
    | gap =>
      simp only [nodeRunAt] at hok
      have hnode : gap_analysis_node (gapSnapshot env init σ) = u :=
        safe_run_sync_of_ok _ _ _ u hok
      unfold restrictKeys
      rw [f4, f5, hnode]
    | lp =>
      simp only [nodeRunAt] at hok
      have hnode : learning_plan_node (postGap env init σ) env = u :=
        safe_run_of_ok _ _ _ u hok
      unfold restrictKeys
      rw [f6, hnode]
    | rt =>
      simp only [nodeRunAt] at hok
      have hnode : resume_tuning_node (postGap env init σ) env = u :=
        safe_run_of_ok _ _ _ u hok
      unfold restrictKeys
      rw [f7, hnode]

/-- Witness for C3: under an environment whose GitHub repository listing
raises, the run completes, the GitHub fallback lands in the final state,
and every succeeding node's real result lands there too. -/
theorem single_node_failure_contained_witness :
    restrictKeys GNode.gh (runGapGraph sampleEnvGHFail sampleInit fanOrder tailOrder)
        = restrictKeys GNode.gh
            (nodeFallbackAt sampleEnvGHFail sampleInit fanOrder GNode.gh)
  ∧ (∀ m u, nodeRunAt sampleEnvGHFail sampleInit fanOrder m = Except.ok u →
      restrictKeys m (runGapGraph sampleEnvGHFail sampleInit fanOrder tailOrder)
        = restrictKeys m u) :=
  single_node_failure_contained sampleEnvGHFail sampleInit fanOrder tailOrder
    GNode.gh "HTTP 500" (List.Perm.refl _) (List.Perm.refl _) rfl

/-! ## Graph validation lemmas -/

/-- Membership in the one-step successor set. -/
lemma mem_succsOf (g : GraphDef) (S : Finset String) (x : String) :
    x ∈ succsOf g S ↔ ∃ y, y ∈ S ∧ edgeRel g y x := by
  unfold succsOf edgeRel
  simp only [List.mem_toFinset, List.mem_map, List.mem_filter,
    Bool.and_eq_true, decide_eq_true_eq]
  constructor
  · rintro ⟨e, ⟨he, ⟨hS, h1⟩, h2⟩, hx⟩
    refine ⟨e.1, hS, ?_, ?_, ?_⟩
    · rw [← hx]
      exact he
    · simpa using h1
    · rw [← hx]
      simpa using h2
  · rintro ⟨y, hS, he, h1, h2⟩
    exact ⟨(y, x), ⟨he, ⟨hS, by simpa using h1⟩, by simpa using h2⟩, rfl⟩

/-- Successors are always declared nodes. -/
lemma succsOf_subset_nodes (g : GraphDef) (S : Finset String) :
    succsOf g S ⊆ g.nodes.toFinset := by
  intro x hx
  obtain ⟨y, -, -, -, hx⟩ := (mem_succsOf g S x).mp hx
  exact List.mem_toFinset.mpr hx

/-- One closure step only grows the set. -/
lemma subset_stepR (g : GraphDef) (S : Finset String) : S ⊆ stepR g S :=
  Finset.subset_union_left

/-- The closure step preserves containment in the declared node set. -/
lemma stepR_subset_nodes (g : GraphDef) (S : Finset String)
    (h : S ⊆ g.nodes.toFinset) : stepR g S ⊆ g.nodes.toFinset :=
  Finset.union_subset h (succsOf_subset_nodes g S)

/-- Iterating the closure step preserves containment in the node set. -/
lemma iterate_stepR_subset_nodes (g : GraphDef) (S : Finset String)
    (h : S ⊆ g.nodes.toFinset) :
    ∀ k, (stepR g)^[k] S ⊆ g.nodes.toFinset := by
  intro k
  induction k with
  | zero => exact h
  | succ k ih =>
    rw [Function.iterate_succ_apply']
    exact stepR_subset_nodes g _ ih

/-- A set is contained in all of its closure iterates. -/
lemma subset_iterate_stepR (g : GraphDef) (S : Finset String) :
    ∀ k, S ⊆ (stepR g)^[k] S := by
  intro k
  induction k with
  | zero => exact le_refl S
  | succ k ih =>
    rw [Function.iterate_succ_apply']
    exact ih.trans (subset_stepR g _)

/-- While no iterate is yet a fixpoint, the closure iterates grow strictly
in cardinality. -/
lemma card_le_iterate_stepR (g : GraphDef) (S0 : Finset String) :
    ∀ k, (∀ j, j < k → stepR g ((stepR g)^[j] S0) ≠ (stepR g)^[j] S0) →
      S0.card + k ≤ ((stepR g)^[k] S0).card := by
  intro k
  induction k with
  | zero => simp
  | succ k ih =>
    intro h
    have h1 := ih fun j hj => h j (Nat.lt_succ_of_lt hj)
    have hne := h k (Nat.lt_succ_self k)
    have hsub : (stepR g)^[k] S0 ⊂ stepR g ((stepR g)^[k] S0) :=
      Finset.ssubset_iff_subset_ne.mpr ⟨subset_stepR g _, fun hh => hne hh.symm⟩
    have h2 := Finset.card_lt_card hsub
    rw [Function.iterate_succ_apply']
    omega

/-- The reachable-set computation lands on a fixpoint of the closure step:
enough iterations are performed that the monotone growth must stop. -/
lemma reachSet_fixed (g : GraphDef) (a : String) :
    stepR g (reachSet g a) = reachSet g a := by
  unfold reachSet
  by_cases hfix : ∃ k, k ≤ g.nodes.toFinset.card + 1
      ∧ stepR g ((stepR g)^[k] (succsOf g {a})) = (stepR g)^[k] (succsOf g {a})
  · obtain ⟨k, hk, hfx⟩ := hfix
    have hNk : (stepR g)^[g.nodes.toFinset.card + 1] (succsOf g {a})
        = (stepR g)^[k] (succsOf g {a}) := by
      have hsplit : g.nodes.toFinset.card + 1 = (g.nodes.toFinset.card + 1 - k) + k :=
        (Nat.sub_add_cancel hk).symm
      rw [hsplit, Function.iterate_add_apply, Function.iterate_fixed hfx]
    rw [hNk, hfx]
  · exfalso
    push_neg at hfix
    have hgrow := card_le_iterate_stepR g (succsOf g {a})
      (g.nodes.toFinset.card + 1) fun j hj => hfix j (Nat.le_of_lt hj)
    have hsub := iterate_stepR_subset_nodes g (succsOf g {a})
      (succsOf_subset_nodes g _) (g.nodes.toFinset.card + 1)
    have hcard := Finset.card_le_card hsub
    omega

/-- Soundness of the iterated closure: every member of an iterate is
reachable, provided every seed member is. -/
lemma iterate_stepR_sound (g : GraphDef) (a : String) :
    ∀ (k : Nat) (S : Finset String),
      (∀ x ∈ S, Relation.TransGen (edgeRel g) a x) →
      ∀ x ∈ (stepR g)^[k] S, Relation.TransGen (edgeRel g) a x := by
  intro k
  induction k with
  | zero => exact fun S h x hx => h x hx
  | succ k ih =>
    intro S h x hx
    rw [Function.iterate_succ_apply'] at hx
    unfold stepR at hx
    rcases Finset.mem_union.mp hx with hx | hx
    · exact ih S h x hx
    · obtain ⟨y, hy, hrel⟩ := (mem_succsOf g _ x).mp hx
      exact (ih S h y hy).tail hrel

/-- Every member of the reachable set is reachable in at least one step. -/
lemma reachSet_sound (g : GraphDef) (a : String) :
    ∀ x ∈ reachSet g a, Relation.TransGen (edgeRel g) a x := by
  unfold reachSet
  refine iterate_stepR_sound g a _ _ ?_
  intro x hx
  obtain ⟨y, hy, hrel⟩ := (mem_succsOf g _ x).mp hx
  rw [Finset.mem_singleton] at hy
  subst hy
  exact Relation.TransGen.single hrel

/-- Every node reachable in at least one step is in the reachable set. -/
lemma reachSet_complete (g : GraphDef) (a b : String)
    (h : Relation.TransGen (edgeRel g) a b) : b ∈ reachSet g a := by
  induction h with
  | single hrel =>
    refine subset_iterate_stepR g _ _ ?_
    exact (mem_succsOf g _ _).mpr ⟨a, Finset.mem_singleton_self a, hrel⟩
  | tail htg hrel ih =>
    have hb : _ ∈ stepR g (reachSet g a) :=
      Finset.mem_union_right _ ((mem_succsOf g _ _).mpr ⟨_, ih, hrel⟩)
    rw [reachSet_fixed] at hb
    exact hb

/-- The boolean cycle test decides existence of a directed cycle among the
declared nodes. -/
lemma hasCycle_iff (g : GraphDef) :
    hasCycle g = true ↔ ∃ n, Relation.TransGen (edgeRel g) n n := by
  unfold hasCycle
  rw [List.any_eq_true]
  constructor
  · rintro ⟨n, hn, hmem⟩
    rw [decide_eq_true_eq] at hmem
    exact ⟨n, reachSet_sound g n n hmem⟩
  · rintro ⟨n, htg⟩
    have hn : n ∈ g.nodes := by
      cases htg with
      | single hrel => exact hrel.2.2
      | tail _ hrel => exact hrel.2.2
    exact ⟨n, hn, decide_eq_true (reachSet_complete g n n htg)⟩

/-- The boolean edge check decides well-formedness of all edges. -/
lemma edges_all_ok_iff (g : GraphDef) :
    g.edges.all (edgeOk g) = true
      ↔ ∀ e ∈ g.edges,
          (e.1 = STARTM ∨ e.1 ∈ g.nodes) ∧ (e.2 = ENDM ∨ e.2 ∈ g.nodes) := by
  rw [List.all_eq_true]
  constructor <;> intro h e he <;> have hh := h e he <;>
    simpa [edgeOk] using hh

/-- C6: `build` validates the declared graph before any execution and
fails with a `GraphValidationError` exactly when the graph is structurally
invalid — a duplicate node name, an edge referencing a name that is
neither a declared node nor the START/END marker, or a directed cycle
among the nodes; and the graph `build_graph` declares passes validation,
so only it reaches execution. -/
theorem build_validates_structure :
    (∀ g : GraphDef,
      (∃ err, build g = Except.error err)
        ↔ (¬ g.nodes.Nodup
            ∨ ¬ (∀ e ∈ g.edges,
                  (e.1 = STARTM ∨ e.1 ∈ g.nodes) ∧ (e.2 = ENDM ∨ e.2 ∈ g.nodes))
            ∨ (∃ n, Relation.TransGen (edgeRel g) n n)))
  ∧ build gapGraphDef = Except.ok gapGraphDef := by
  constructor
  · intro g
    unfold build
    split_ifs with h1 h2 h3
    · exact ⟨fun _ => Or.inr (Or.inr ((hasCycle_iff g).mp h3)),
        fun _ => ⟨GraphValidationError.cycleDetected, rfl⟩⟩
    · constructor
      · rintro ⟨err, herr⟩
        cases herr
      · rintro (hbad | hbad | hbad)
        · exact (hbad h1).elim
        · exact (hbad ((edges_all_ok_iff g).mp h2)).elim
        · exact (h3 ((hasCycle_iff g).mpr hbad)).elim
    · exact ⟨fun _ => Or.inr (Or.inl fun hf => h2 ((edges_all_ok_iff g).mpr hf)),
        fun _ => ⟨GraphValidationError.danglingEdge, rfl⟩⟩
    · exact ⟨fun _ => Or.inl h1,
        fun _ => ⟨GraphValidationError.duplicateNode, rfl⟩⟩
  · decide

/-- Witness for C6: the declared gap-analysis graph passes validation, and
a deliberately cyclic graph is rejected with a `GraphValidationError`. -/
theorem build_validates_structure_witness :
    build gapGraphDef = Except.ok gapGraphDef
  ∧ (∃ err, build cyclicGraphDef = Except.error err) :=
  ⟨build_validates_structure.2,
   (build_validates_structure.1 cyclicGraphDef).mpr
     (Or.inr (Or.inr ⟨"a",
       Relation.TransGen.tail
         (show Relation.TransGen (edgeRel cyclicGraphDef) "a" "b" from
           Relation.TransGen.single (by simp [edgeRel, cyclicGraphDef]))
         (show edgeRel cyclicGraphDef "b" "a" from
           by simp [edgeRel, cyclicGraphDef])⟩))⟩

end AgentFlow
